import Mathlib

/-!
# sshell: the pipeline engine of `src/sshell.c`

A shallow embedding of the shell process of `sshell.c`: the tokenizer built on
`strtok`, the redirect cut made by `main`, `parse`, `run` (its parent side) and
`runPipe`, followed by the properties proved about them.

Conventions of the embedding.

* A C string is a list of characters, one per byte (`CStr`); a `char *` that may be
  `NULL` is an `Option CStr`.
* The queue built by `parse` is the list of its nodes, in `next` order.  `parse`
  never assigns the `next` field of the last node; the embedding takes the list
  to end there.
* The operating system is a parameter (`OS`): it answers `open`, `chdir`, `fork`
  and `waitpid`.  `pipe` and a successful `open` hand out the lowest unused
  descriptor numbers.  Only the shell process is modelled; what a child does
  after `fork` is recorded in the `fork` event through the pipes it is given.
* Every system call and every `printf` of the shell process is an `Event`;
  functions return the events they produce, oldest first.
* Dereferencing a `NULL` command name and writing past `command[ARGS_MAX - 1]`
  are undefined behaviour in C; the embedding stops there with a `Fault`.
-/

namespace SShell

/-- A C string: the bytes before the terminating NUL. -/
abbrev CStr := List Char

/-- Source: `#define CMDLINE_MAX 512`. -/
def CMDLINE_MAX : Nat := 512

/-- Source: `#define ARGS_MAX 16`. -/
def ARGS_MAX : Nat := 16

/-! ## libc string functions used by the shell -/

/-- One call of `strtok` scanning from `s` with delimiter set `delim`: leading
delimiters are skipped; when nothing is left the call returns `NULL`; otherwise
the token runs up to the next delimiter, which is overwritten with NUL, and the
saved pointer is left just after it (or at the end of the string).  The result is
the token and the text at the saved pointer. -/
def strtokFrom (delim : CStr) (s : CStr) : Option CStr × CStr :=
  match s.dropWhile (fun c => delim.contains c) with
  | [] => (none, [])
  | c :: cs =>
    (some ((c :: cs).takeWhile (fun x => !delim.contains x)),
     ((c :: cs).dropWhile (fun x => !delim.contains x)).drop 1)

/-- The tokens returned by the loop `while((c = strtok(NULL, delim)))` started with
the saved pointer at `save`.  Every token consumes at least one byte, so
`fuel = save.length` iterations always reach the `NULL` that ends the loop. -/
def strtokRest (delim : CStr) : Nat → CStr → List CStr
  | 0, _ => []
  | fuel + 1, save =>
    match strtokFrom delim save with
    | (none, _) => []
    | (some tok, rest) => tok :: strtokRest delim fuel rest

/-- The C string found at the start of the buffer after `strtok(buf, delim)`: the
buffer is cut at the delimiter that ended the first token, if there was one. -/
def bufAfterStrtok (delim : CStr) (buf : CStr) : CStr :=
  buf.takeWhile (fun c => delim.contains c) ++
    (buf.dropWhile (fun c => delim.contains c)).takeWhile (fun x => !delim.contains x)

/-- The libc `strcmp`: zero for equal strings, otherwise the difference of the first
two bytes that differ (the NUL terminator counting as byte 0). -/
def strcmp : CStr → CStr → Int
  | [], [] => 0
  | [], b :: _ => - (b.toNat : Int)
  | a :: _, [] => (a.toNat : Int)
  | a :: as, b :: bs => if a = b then strcmp as bs else (a.toNat : Int) - (b.toNat : Int)

/-! ## The queue -/

/-- Source: `struct queue`, one node of the queue, without its `next` field: the
`command` array and the `result` slot of one pipeline stage.  The queue itself is
the list of its nodes. -/
structure Queue where
  command : List (Option CStr)
  result : Int
deriving DecidableEq, Repr

/-- The two ways the C code leaves defined behaviour. -/
inductive Fault where
  | nullName
  | argsOverflow
deriving DecidableEq, Repr

/-- Entry `command[0]` of a stage, `NULL` included. -/
def cmdName (job : Queue) : Option CStr := job.command.head?.join

/-- Entry `command[1]` of a stage, `NULL` included. -/
def cmdArg (job : Queue) : Option CStr := (job.command.get? 1).join

/-! ## parse -/

/-- Source: `while((job->command[argc++] = strtok(NULL, " ")));` in `parse`.
The writes `(index, value)` the loop makes, in order, starting at index `argc`
with the saved pointer at `save`; the last write is the `NULL` that ends the loop. -/
def argWrites : Nat → CStr → Nat → List (Nat × Option CStr)
  | 0, _, argc => [(argc, none)]
  | fuel + 1, save, argc =>
    match strtokFrom " ".toList save with
    | (none, _) => [(argc, none)]
    | (some tok, rest) => (argc, some tok) :: argWrites fuel rest (argc + 1)

/-- Source: `while(argc < ARGS_MAX) job->command[argc++] = NULL;` in `parse`. -/
def padWrites (argc : Nat) : List (Nat × Option CStr) :=
  (List.range' argc (ARGS_MAX - argc)).map (fun i => (i, none))

/-- Source: the body of the second loop of `parse` for one node whose `command[0]`
holds the segment text `seg` (or `NULL`, for which `strtok` resumes at the saved
pointer, the end of the line): all writes into `command`, in order. -/
def jobWrites (seg : Option CStr) : List (Nat × Option CStr) :=
  let first := strtokFrom " ".toList (seg.getD [])
  let ws := argWrites first.2.length first.2 1
  (0, first.1) :: ws ++ padWrites (1 + ws.length)

/-- The `command` array after the writes; a write at an index outside the array
is a fault. -/
def storeWrites (ws : List (Nat × Option CStr)) : Except Fault (List (Option CStr)) :=
  if ws.all (fun w => decide (w.1 < ARGS_MAX)) then
    .ok (ws.foldl (fun arr w => arr.set w.1 w.2) (List.replicate ARGS_MAX none))
  else
    .error Fault.argsOverflow

/-- The second loop of `parse` over the nodes, given the segment text each node
holds in `command[0]`.  The `result` slot is not written by `parse`; `runPipe`
assigns it before reading it. -/
def parseJobs : List (Option CStr) → Except Fault (List Queue)
  | [] => .ok []
  | seg :: segs =>
    match storeWrites (jobWrites seg) with
    | .error f => .error f
    | .ok cmd =>
      match parseJobs segs with
      | .error f => .error f
      | .ok js => .ok (⟨cmd, 0⟩ :: js)

/-- The segment pointers stored by the first loop of `parse`: `strtok(cmd, "|")` for
the head node (possibly `NULL`), then one node per further token. -/
def parseSegments (cmd : CStr) : List (Option CStr) :=
  let first := strtokFrom "|".toList cmd
  first.1 :: (strtokRest "|".toList first.2.length first.2).map some

/-- Source: `void parse(char *cmd)`. -/
def parse (cmd : CStr) : Except Fault (List Queue) :=
  parseJobs (parseSegments cmd)

/-! ## The operating system seen from the shell process -/

/-- The answers of the operating system, and the indeterminate content of the
uninitialised local `tf` of `runPipe`.
* `tfGarbage`: the value read from `int tf;` when no target was given.
* `openOk path`: whether `open(path, O_WRONLY | O_CREAT, 0666)` succeeds.
* `chdir cwd dir`: the new working directory when `chdir(dir)` succeeds in `cwd`,
  `none` when it fails; a failed `chdir` leaves the working directory as it is.
* `forkRet k`: what `fork()` returns to the parent when stage `k` is spawned
  (`-1` on failure, otherwise the child pid).
* `waitStatus k pid`: the status `waitpid(pid, &status, 0)` stores for the wait
  issued at stage `k` (`none` when the call fails and stores nothing); it may
  depend on every scheduling decision, so it is left arbitrary. -/
structure OS where
  tfGarbage : Int
  openOk : CStr → Bool
  chdir : CStr → CStr → Option CStr
  forkRet : Nat → Int
  waitStatus : Nat → Int → Option Int

/-- The calls and outputs of the shell process.  `fork` records the call
`run(command, pin, pout)` made for `stage`, with the descriptor pairs the two
pointers refer to and the value `fork()` returned. -/
inductive Event where
  | openFile (path : CStr) (ret : Int)
  | chdir (dir : CStr) (ret : Int)
  | pipe (r w : Int)
  | fork (stage : Nat) (command : List (Option CStr)) (pin pout : Option (Int × Int)) (ret : Int)
  | close (fd : Int)
  | waitpid (stage : Nat) (pid : Int)
  | stdout (s : CStr)
  | stderr (s : CStr)
deriving DecidableEq, Repr

/-- The state of the shell process that the pipeline engine touches: its open
descriptors and its working directory. -/
structure Proc where
  fds : List Int
  cwd : CStr
deriving DecidableEq, Repr

/-- What a run of (part of) the engine produced: the events, the queue nodes with
their `result` slots, the process state, and the fault that stopped it, if any. -/
structure Outcome where
  events : List Event
  jobs : List Queue
  proc : Proc
  fault : Option Fault
deriving DecidableEq, Repr

/-- The lowest descriptor number that is not open, as POSIX hands out. -/
def lowestFree (fds : List Int) : Int :=
  Int.ofNat (((List.range (fds.length + 1)).find? (fun n => !fds.contains (Int.ofNat n))).getD
    fds.length)

/-- Source: `printf("Process failed to fork: Insufficient resources available!\n")`. -/
def forkFailMsg : CStr := "Process failed to fork: Insufficient resources available!\n".toList

/-- Source: `printf("Error: Missing target directory!\n")`. -/
def missingDirMsg : CStr := "Error: Missing target directory!\n".toList

/-- Source: `fprintf(stderr, "Error: file %s failed to open!\n", target)`. -/
def openFailMsg (target : CStr) : CStr :=
  "Error: file ".toList ++ target ++ " failed to open!\n".toList

/-! ## run and runPipe -/

/-- Source: `int run(char **command, int *pipein, int *pipeout)`, parent side: the
call to `fork`, the message and `-1` when it fails, the child pid otherwise. -/
def run (os : OS) (stage : Nat) (command : List (Option CStr))
    (pin pout : Option (Int × Int)) : List Event × Int :=
  let child := os.forkRet stage
  if child = -1 then
    ([Event.fork stage command pin pout child, Event.stdout forkFailMsg], -1)
  else
    ([Event.fork stage command pin pout child], child)

/-- Source: `if((job->next)||(tf)){ pout = malloc(..); pipe(pout); if(!job->next)
pout[1] = tf; }` in `runPipe`; `last` says that `job->next` is `NULL`.  Returns the
events, the new `pout` and the open descriptors. -/
def wire (tf : Int) (last : Bool) (pout : Option (Int × Int)) (fds : List Int) :
    List Event × Option (Int × Int) × List Int :=
  if !last || tf ≠ 0 then
    let r := lowestFree fds
    let w := lowestFree (r :: fds)
    ([Event.pipe r w], some (r, if last then tf else w), w :: r :: fds)
  else
    ([], pout, fds)

/-- Source: `if(pin){ close(pin[0]); close(pin[1]); free(pin); }` in `runPipe`. -/
def closePin (pin : Option (Int × Int)) (fds : List Int) : List Event × List Int :=
  match pin with
  | some (a, b) => ([Event.close a, Event.close b], (fds.erase a).erase b)
  | none => ([], fds)

/-- Put the events and the node of one loop iteration in front of the outcome of
the remaining iterations. -/
def Outcome.after (evs : List Event) (job : Queue) (o : Outcome) : Outcome :=
  ⟨evs ++ o.events, job :: o.jobs, o.proc, o.fault⟩

/-- Source: the loop `while(job){ ... job = job->next; }` of `runPipe` that runs the
stages, from stage index `k` on, with the current `pout`. -/
def spawnLoop (os : OS) (tf : Int) : Nat → List Queue → Option (Int × Int) → Proc → Outcome
  | _, [], _, p => ⟨[], [], p, none⟩
  | k, job :: rest, pout, p =>
    match cmdName job with
    | none => ⟨[], job :: rest, p, some Fault.nullName⟩
    | some name =>
      if strcmp name "cd".toList = 0 then
        match cmdArg job with
        | some dir =>
          match os.chdir p.cwd dir with
          | some cwd2 =>
            Outcome.after [Event.chdir dir 0] { job with result := 0 }
              (spawnLoop os tf (k + 1) rest pout { p with cwd := cwd2 })
          | none =>
            Outcome.after [Event.chdir dir (-1)] { job with result := -1 }
              (spawnLoop os tf (k + 1) rest pout p)
        | none =>
          Outcome.after [Event.stdout missingDirMsg] { job with result := -1 }
            (spawnLoop os tf (k + 1) rest pout p)
      else
        let wr := wire tf rest.isEmpty pout p.fds
        let rn := run os k job.command pout wr.2.1
        let cl := closePin pout wr.2.2
        Outcome.after (wr.1 ++ rn.1 ++ cl.1) { job with result := rn.2 }
          (spawnLoop os tf (k + 1) rest wr.2.1 { p with fds := cl.2 })

/-- Source: the value tested before `waitpid` in `runPipe`:
`strcmp(job->command[0], "cd") + (job->result != -1)`. -/
def waitCond (name : CStr) (result : Int) : Int :=
  strcmp name "cd".toList + (if result ≠ -1 then 1 else 0)

/-- Source: the loop of `runPipe` that collects the results:
`if(strcmp(job->command[0], "cd") + (job->result != -1)) waitpid(job->result,
&(job->result), 0);`. -/
def waitLoop (os : OS) : Nat → List Queue → List Event × List Queue × Option Fault
  | _, [] => ([], [], none)
  | k, job :: rest =>
    match cmdName job with
    | none => ([], job :: rest, some Fault.nullName)
    | some name =>
      let r := waitLoop os (k + 1) rest
      if waitCond name job.result ≠ 0 then
        (Event.waitpid k job.result :: r.1,
         { job with result := (os.waitStatus k job.result).getD job.result } :: r.2.1, r.2.2)
      else
        (r.1, job :: r.2.1, r.2.2)

/-- Source: `printf(" [%d]", head->result)`. -/
def statusField (r : Int) : CStr := " [".toList ++ (toString r).toList ++ "]".toList

/-- Source: the report printed at the end of `runPipe`: the header with `prompt`,
one field per node, and the newline. -/
def reportEvents (prompt : CStr) (jobs : List Queue) : List Event :=
  Event.stdout ("Return status value of \x27".toList ++ prompt ++ "\x27:".toList) ::
    (jobs.map (fun j => Event.stdout (statusField j.result)) ++ [Event.stdout "\n".toList])

/-- Source: the start of `runPipe`: `int tf; if(target){ if((tf = open(..)) == -1)
fprintf(stderr, ..); }`.  Returns the events, the value of `tf` and the open
descriptors. -/
def openTarget (os : OS) (target : Option CStr) (fds : List Int) :
    List Event × Int × List Int :=
  match target with
  | none => ([], os.tfGarbage, fds)
  | some path =>
    if os.openOk path then
      ([Event.openFile path (lowestFree fds)], lowestFree fds, lowestFree fds :: fds)
    else
      ([Event.openFile path (-1), Event.stderr (openFailMsg path)], -1, fds)

/-- Source: `if(tf){ close(tf); free(pout); target = NULL; }` in `runPipe`. -/
def closeTarget (tf : Int) (fds : List Int) : List Event × List Int :=
  if tf ≠ 0 then ([Event.close tf], fds.erase tf) else ([], fds)

/-- Source: `void runPipe(char *target)`, run on the queue `q` built by `parse`, with
the global `prompt`. -/
def runPipe (os : OS) (prompt : CStr) (target : Option CStr) (q : List Queue) (p : Proc) :
    Outcome :=
  let op := openTarget os target p.fds
  let sp := spawnLoop os op.2.1 0 q none { p with fds := op.2.2 }
  match sp.fault with
  | some f => ⟨op.1 ++ sp.events, sp.jobs, sp.proc, some f⟩
  | none =>
    let ct := closeTarget op.2.1 sp.proc.fds
    let wt := waitLoop os 0 sp.jobs
    match wt.2.2 with
    | some f => ⟨op.1 ++ sp.events ++ ct.1 ++ wt.1, wt.2.1, { sp.proc with fds := ct.2 }, some f⟩
    | none =>
      ⟨op.1 ++ sp.events ++ ct.1 ++ wt.1 ++ reportEvents prompt wt.2.1, wt.2.1,
        { sp.proc with fds := ct.2 }, none⟩

/-! ## main -/

/-- Source: `printf(BOLD_TEXT "sshell$ " RESET_TEXT)`. -/
def shellPrompt : CStr := "\x1b[1msshell$ \x1b[m".toList

/-- Source: `strtok(cmd, ">"); char *target = strtok(NULL, ">");` in `main`: the
command text left at the start of the buffer, and the target. -/
def cutRedirect (cmd : CStr) : CStr × Option CStr :=
  (bufAfterStrtok ">".toList cmd,
   match strtokFrom ">".toList cmd with
   | (none, _) => none
   | (some _, save) => (strtokFrom ">".toList save).1)

/-- One pass through the body of `while (1)` in `main`. -/
structure Iteration where
  events : List Event
  jobs : List Queue
  proc : Proc
  fault : Option Fault
  goesOn : Bool
deriving DecidableEq, Repr

/-- Source: the text `getcwd(buff, CMDLINE_MAX)` hands to `printf("%s")`: the working
directory when it fits the buffer, and what glibc prints for `NULL` otherwise. -/
def getcwdText (p : Proc) : CStr :=
  if p.cwd.length < CMDLINE_MAX then p.cwd else "(null)".toList

/-- Source: `printf(BOLD_TEXT "sshell$ " RESET_TEXT)` and, when standard input is not
a terminal, `printf("%s", cmd)` of the line just read. -/
def promptEvents (tty : Bool) (raw : CStr) : List Event :=
  Event.stdout shellPrompt :: (if tty then [] else [Event.stdout raw])

/-- Source: `nl = strchr(cmd, NEWLINE); if (nl) *nl = 0;` in `main`: the line up to its
first newline. -/
def stripNewline (raw : CStr) : CStr :=
  raw.takeWhile (fun c => c != Char.ofNat 10)

/-- Source: the body of `while (1)` in `main`, from the prompt on; `raw` is what
`fgets` left in `cmd` and `tty` the answer of `isatty(STDIN_FILENO)`. -/
def mainIter (os : OS) (tty : Bool) (raw : CStr) (p : Proc) : Iteration :=
  let pre := promptEvents tty raw
  let cmd := stripNewline raw
  if strcmp cmd "exit".toList = 0 then
    ⟨pre ++ [Event.stdout "Bye!\n".toList], [], p, none, false⟩
  else if strcmp cmd "pwd".toList = 0 then
    ⟨pre ++ [Event.stdout ("Current working directory: ".toList ++ getcwdText p ++ "\n".toList)],
      [], p, none, true⟩
  else
    let cut := cutRedirect cmd
    match parse cut.1 with
    | .error f => ⟨pre, [], p, some f, false⟩
    | .ok q =>
      let out := runPipe os cmd cut.2 q p
      ⟨pre ++ out.events, out.jobs, out.proc, out.fault, out.fault.isNone⟩

/-! ## Reference splitting, following the words of the specification -/

/-- Reference: the pieces of `s` between the separators, the characters for which
`p` holds; `k` separators give `k + 1` pieces, empty ones included. -/
def splitAtSep (p : Char → Bool) : CStr → List CStr
  | [] => [[]]
  | c :: cs =>
    if p c then [] :: splitAtSep p cs
    else
      match splitAtSep p cs with
      | [] => [[c]]
      | w :: ws => (c :: w) :: ws

/-- Reference: the non-empty pieces of `s` between separators. -/
def piecesOf (p : Char → Bool) (s : CStr) : List CStr :=
  (splitAtSep p s).filter (fun w => !w.isEmpty)

/-- One `strtok` call with the delimiter test abstracted to a predicate. -/
def strtokP (p : Char → Bool) (s : CStr) : Option CStr × CStr :=
  match s.dropWhile p with
  | [] => (none, [])
  | c :: cs =>
    (some ((c :: cs).takeWhile (fun x => !p x)), ((c :: cs).dropWhile (fun x => !p x)).drop 1)

/-- Reference: the pipeline segments of a command text, the pieces between `|`. -/
def segmentsOf (cmd : CStr) : List CStr := splitAtSep (fun c => c == '|') cmd

/-- Reference: the words of a segment when only the space character separates. -/
def spaceWords (seg : CStr) : List CStr := piecesOf (fun c => c == ' ') seg

/-- Reference: the words of a segment when any whitespace character separates. -/
def whitespaceWords (seg : CStr) : List CStr := piecesOf Char.isWhitespace seg

/-- Reference: the `command` array holding the words `ws` followed by `NULL` in every
remaining slot. -/
def commandOf (ws : List CStr) : List (Option CStr) :=
  ws.map some ++ List.replicate (ARGS_MAX - ws.length) none

/-- Reference: the stage built from a segment text. -/
def stageOf (seg : CStr) : Queue := ⟨commandOf (spaceWords seg), 0⟩

/-- The values `parse` writes into `command`, slot by slot from index 0, for a
segment with words `ws`. -/
def writtenValues (ws : List CStr) : List (Option CStr) :=
  match ws with
  | [] => none :: none :: List.replicate (ARGS_MAX - 2) none
  | w :: rest => (some w :: rest.map some) ++ none :: List.replicate (ARGS_MAX - (rest.length + 2)) none

/-- Whether an event is a `waitpid` call. -/
def Event.isWait : Event → Bool
  | Event.waitpid _ _ => true
  | _ => false

/-- The pids passed to `waitpid`, in call order. -/
def waitedPids : List Event → List Int
  | [] => []
  | Event.waitpid _ pid :: rest => pid :: waitedPids rest
  | _ :: rest => waitedPids rest

/-- The text written to standard output and standard error, in order. -/
def outputs : List Event → List CStr
  | [] => []
  | Event.stdout s :: rest => s :: outputs rest
  | Event.stderr s :: rest => s :: outputs rest
  | _ :: rest => outputs rest

/-- The events of `runPipe` up to the report, when no stage lacks its name. -/
def runPipePre (os : OS) (target : Option CStr) (q : List Queue) (p : Proc) : List Event :=
  (openTarget os target p.fds).1 ++
    (spawnLoop os (openTarget os target p.fds).2.1 0 q none
      { p with fds := (openTarget os target p.fds).2.2 }).events ++
    (closeTarget (openTarget os target p.fds).2.1
      (spawnLoop os (openTarget os target p.fds).2.1 0 q none
        { p with fds := (openTarget os target p.fds).2.2 }).proc.fds).1 ++
    (waitLoop os 0 (spawnLoop os (openTarget os target p.fds).2.1 0 q none
      { p with fds := (openTarget os target p.fds).2.2 }).jobs).1

/-- An operating system for the concrete runs: `tf` starts as 0, every `open`
succeeds, only `/tmp` can be entered, the child of stage `k` gets pid `100 + k`,
and every `waitpid` stores status 0. -/
def demoOS : OS :=
  ⟨0, fun _ => true, fun _ d => if d = "/tmp".toList then some d else none,
    fun k => 100 + (k : Int), fun _ _ => some 0⟩

/-- The operating system of `demoOS` on which no file can be opened. -/
def noOpenOS : OS := { demoOS with openOk := fun _ => false }

/-- A shell process with the three standard descriptors open, in `/home`. -/
def demoProc : Proc := ⟨[0, 1, 2], "/home".toList⟩

/-- The operating system of `demoOS` on which every `fork` fails. -/
def noForkOS : OS := { demoOS with forkRet := fun _ => -1 }

/-- Whether an event is a call of `run`. -/
def Event.isFork : Event → Bool
  | Event.fork _ _ _ _ _ => true
  | _ => false

/-- Whether an event is a `close` call. -/
def Event.isClose : Event → Bool
  | Event.close _ => true
  | _ => false

/-- The operating system of `demoOS` when the child with pid 101 ends first with
status 0 and the child with pid 102 later with status 256: `waitpid(0, ..)` reaps
101, after which `waitpid(101, ..)` fails, and `waitpid(102, ..)` stores 256. -/
def firstChildFirstOS : OS :=
  { demoOS with
    waitStatus := fun _ pid =>
      if pid = 0 then some 0 else if pid = 102 then some 256 else none }

/-- The operating system of `demoOS` with the same two children when pid 102 ends
first: `waitpid(0, ..)` reaps 102 and stores 256, `waitpid(101, ..)` stores 0, and
`waitpid(102, ..)` fails. -/
def secondChildFirstOS : OS :=
  { demoOS with
    waitStatus := fun _ pid =>
      if pid = 0 then some 256 else if pid = 101 then some 0 else none }

/-! ## Theorems -/

/-- The first reference piece is the text up to the first separator; the others are
the pieces of what follows it. -/
theorem splitAtSep_eq (p : Char → Bool) (s : CStr) :
    splitAtSep p s = s.takeWhile (fun x => !p x) ::
      (match s.dropWhile (fun x => !p x) with
       | [] => []
       | _ :: rest => splitAtSep p rest) := by
  induction s with
  | nil => simp [splitAtSep]
  | cons c cs ih =>
    by_cases h : p c
    · simp [splitAtSep, h]
    · rw [splitAtSep, if_neg h, ih]
      simp [h]

/-- Leading separators add only empty pieces. -/
theorem piecesOf_dropWhile (p : Char → Bool) (s : CStr) :
    piecesOf p s = piecesOf p (s.dropWhile p) := by
  induction s with
  | nil => rfl
  | cons c cs ih =>
    by_cases h : p c
    · rw [List.dropWhile_cons_of_pos h, ← ih]
      simp [piecesOf, splitAtSep, h]
    · rw [List.dropWhile_cons_of_neg h]

theorem piecesOf_nil (p : Char → Bool) : piecesOf p [] = [] := by
  simp [piecesOf, splitAtSep]

/-- One `strtok` call either finds nothing, when there is no non-empty piece, or
returns the first non-empty piece and leaves the saved pointer on a strictly
shorter text holding the remaining pieces. -/
theorem strtokP_spec (p : Char → Bool) (s : CStr) :
    (strtokP p s = (none, []) ∧ piecesOf p s = []) ∨
    (∃ t sv, strtokP p s = (some t, sv) ∧ piecesOf p s = t :: piecesOf p sv ∧
      sv.length < s.length ∧ t ≠ []) := by
  rw [piecesOf_dropWhile]
  unfold strtokP
  have hlen := (List.dropWhile_sublist p (l := s)).length_le
  rcases hd : s.dropWhile p with _ | ⟨c, cs⟩
  · left; simp [piecesOf_nil]
  · right
    rw [hd] at hlen
    have hc : p c = false := by
      have := List.head_dropWhile_not p s (by rw [hd]; exact List.cons_ne_nil _ _)
      simpa only [hd, List.head_cons] using this
    have hne : ((c :: cs).takeWhile (fun x => !p x)) ≠ [] := by
      simp [List.takeWhile_cons, hc]
    refine ⟨_, _, rfl, ?_, ?_, hne⟩
    · rw [piecesOf, splitAtSep_eq]
      rw [List.filter_cons_of_pos (by simpa using hne)]
      congr 1
      rcases hr : (c :: cs).dropWhile (fun x => !p x) with _ | ⟨d, rest⟩
      · simp [piecesOf_nil]
      · simp [piecesOf]
    · have h2 : ((c :: cs).dropWhile (fun x => !p x)).length ≤ cs.length := by
        rw [List.dropWhile_cons_of_pos (by simp [hc])]
        exact (List.dropWhile_sublist _).length_le
      simp only [List.length_drop, List.length_cons] at *
      omega

/-- What one `strtok` call returns, in terms of the reference pieces. -/
theorem strtokFrom_spec (delim : CStr) (s : CStr) :
    (strtokFrom delim s = (none, []) ∧ piecesOf (fun c => delim.contains c) s = []) ∨
    (∃ t sv, strtokFrom delim s = (some t, sv) ∧
      piecesOf (fun c => delim.contains c) s = t :: piecesOf (fun c => delim.contains c) sv ∧
      sv.length < s.length ∧ t ≠ []) :=
  strtokP_spec _ s

/-- The `strtok` loop returns exactly the non-empty reference pieces, in order, once
the fuel covers the length of the text. -/
theorem strtokRest_eq (delim : CStr) (fuel : Nat) (s : CStr) (h : s.length ≤ fuel) :
    strtokRest delim fuel s = piecesOf (fun c => delim.contains c) s := by
  induction fuel generalizing s with
  | zero =>
    have : s = [] := List.length_eq_zero.mp (Nat.le_zero.mp h)
    subst this
    rw [piecesOf_nil]; rfl
  | succ n ih =>
    rcases strtokFrom_spec delim s with ⟨h1, h2⟩ | ⟨t, sv, h1, h2, h3, _⟩
    · rw [strtokRest, h1, h2]
    · rw [strtokRest, h1, h2]
      show t :: strtokRest delim n sv = _
      rw [ih sv (by omega)]

theorem bar_pred : (fun c => "|".toList.contains c) = (fun c => c == '|') := by
  funext c; simp only [String.toList, List.contains, List.elem_cons, List.elem_nil, Bool.or_false]
  cases (c == '|') <;> rfl

theorem blank_pred : (fun c => " ".toList.contains c) = (fun c => c == ' ') := by
  funext c; simp only [String.toList, List.contains, List.elem_cons, List.elem_nil, Bool.or_false]
  cases (c == ' ') <;> rfl

theorem gt_pred : (fun c => ">".toList.contains c) = (fun c => c == '>') := by
  funext c; simp only [String.toList, List.contains, List.elem_cons, List.elem_nil, Bool.or_false]
  cases (c == '>') <;> rfl

/-- The inner loop of `parse` stores the remaining words at consecutive indices and
then one `NULL`. -/
theorem argWrites_eq (fuel : Nat) (save : CStr) (argc : Nat) (h : save.length ≤ fuel) :
    argWrites fuel save argc = List.enumFrom argc ((spaceWords save).map some ++ [none]) := by
  induction fuel generalizing save argc with
  | zero =>
    have : save = [] := List.length_eq_zero.mp (Nat.le_zero.mp h)
    subst this
    simp [argWrites, spaceWords, piecesOf_nil]
  | succ n ih =>
    rcases strtokFrom_spec " ".toList save with ⟨h1, h2⟩ | ⟨t, sv, h1, h2, h3, _⟩
    · rw [blank_pred] at h2
      rw [argWrites, h1, spaceWords, h2]; rfl
    · rw [blank_pred] at h2
      rw [argWrites, h1, spaceWords, h2]
      show (argc, some t) :: argWrites n sv (argc + 1) = _
      rw [ih sv (argc + 1) (by omega)]; rfl

theorem range_map_enum {α : Type} (x : α) (n a : Nat) :
    (List.range' a n).map (fun i => (i, x)) = List.enumFrom a (List.replicate n x) := by
  induction n generalizing a with
  | zero => rfl
  | succ n ih => simp [List.range'_succ, List.replicate_succ, ih]

theorem padWrites_eq (argc : Nat) :
    padWrites argc = List.enumFrom argc (List.replicate (ARGS_MAX - argc) none) :=
  range_map_enum _ _ _

/-- All writes `parse` makes for a segment: consecutive indices from 0, holding
`writtenValues` of its words. -/
theorem jobWrites_eq (seg : CStr) :
    jobWrites (some seg) = List.enumFrom 0 (writtenValues (spaceWords seg)) := by
  unfold jobWrites
  simp only [Option.getD_some]
  rcases strtokFrom_spec " ".toList seg with ⟨h1, h2⟩ | ⟨t, sv, h1, h2, h3, _⟩
  · rw [blank_pred] at h2
    rw [h1, spaceWords, h2]
    simp [argWrites, writtenValues, padWrites_eq]
  · rw [blank_pred] at h2
    rw [h1, spaceWords, h2]
    simp only [argWrites_eq sv.length sv 1 (le_refl _), padWrites_eq, writtenValues]
    simp [List.enumFrom_append, spaceWords, Nat.add_comm]
    congr 2
    omega

/-- Writing the values `vals` at consecutive indices over a long enough tail replaces
exactly that part of the array. -/
theorem foldl_set_enum {α : Type} (vals pre post : List α) (h : post.length = vals.length) :
    (List.enumFrom pre.length vals).foldl (fun arr w => arr.set w.1 w.2) (pre ++ post) =
      pre ++ vals := by
  induction vals generalizing pre post with
  | nil =>
    have : post = [] := List.length_eq_zero.mp h
    simp [this]
  | cons v vs ih =>
    rcases post with _ | ⟨x, post⟩
    · simp at h
    · simp only [List.enumFrom_cons, List.foldl_cons]
      have hset : (pre ++ x :: post).set pre.length v = (pre ++ [v]) ++ post := by
        simp [List.set_append]
      rw [hset]
      have := ih (pre ++ [v]) post (by simpa using h)
      simpa using this

theorem mem_enumFrom_fst {α : Type} (vals : List α) (a : Nat) (w : Nat × α)
    (h : w ∈ List.enumFrom a vals) : a ≤ w.1 ∧ w.1 < a + vals.length := by
  induction vals generalizing a with
  | nil => simp at h
  | cons v vs ih =>
    simp only [List.enumFrom_cons, List.mem_cons] at h
    rcases h with h | h
    · subst h; simp
    · have := ih (a + 1) h
      simp only [List.length_cons]; omega

/-- Sixteen consecutive writes from index 0 fill the array and nothing else. -/
theorem storeWrites_ok (vals : List (Option CStr)) (h : vals.length = ARGS_MAX) :
    storeWrites (List.enumFrom 0 vals) = .ok vals := by
  unfold storeWrites
  have hall : (List.enumFrom 0 vals).all (fun w => decide (w.1 < ARGS_MAX)) = true := by
    rw [List.all_eq_true]
    intro w hw
    have := mem_enumFrom_fst vals 0 w hw
    simp only [decide_eq_true_eq]; omega
  rw [if_pos hall]
  have := foldl_set_enum vals [] (List.replicate ARGS_MAX none) (by simp [h])
  simp only [List.nil_append, List.length_nil] at this
  rw [this]

/-- More than sixteen consecutive writes from index 0 leave the array. -/
theorem storeWrites_overflow (vals : List (Option CStr)) (h : ARGS_MAX < vals.length) :
    storeWrites (List.enumFrom 0 vals) = .error Fault.argsOverflow := by
  unfold storeWrites
  rw [if_neg]
  intro hall
  rw [List.all_eq_true] at hall
  have hm : (ARGS_MAX, vals.get ⟨ARGS_MAX, h⟩) ∈ List.enumFrom 0 vals := by
    rw [List.mk_mem_enumFrom_iff_le_and_getElem?_sub]
    simp
  have := hall _ hm
  simp at this

theorem writtenValues_length (ws : List CStr) :
    (writtenValues ws).length = max ARGS_MAX (max 2 (ws.length + 1)) := by
  cases ws with
  | nil => simp [writtenValues, ARGS_MAX]
  | cons w rest =>
    simp [writtenValues, ARGS_MAX]
    omega

theorem writtenValues_eq (ws : List CStr) (h : ws.length < ARGS_MAX) :
    writtenValues ws = commandOf ws := by
  cases ws with
  | nil => simp [writtenValues, commandOf, ARGS_MAX, List.replicate]
  | cons w rest =>
    simp only [writtenValues, commandOf, List.map_cons, List.length_cons, List.cons_append]
    have h1 : ARGS_MAX - (rest.length + 1) = (ARGS_MAX - (rest.length + 2)) + 1 := by
      simp only [List.length_cons] at h; omega
    rw [h1, List.replicate_succ]

theorem parseJobs_ok (segs : List CStr)
    (h : ∀ seg ∈ segs, (spaceWords seg).length < ARGS_MAX) :
    parseJobs (segs.map some) = .ok (segs.map stageOf) := by
  induction segs with
  | nil => rfl
  | cons seg rest ih =>
    have hs := h seg (List.mem_cons_self _ _)
    have hv := writtenValues_eq _ hs
    have hl : (writtenValues (spaceWords seg)).length = ARGS_MAX := by
      rw [writtenValues_length]
      have : ARGS_MAX = 16 := rfl
      omega
    simp only [List.map_cons, parseJobs, jobWrites_eq, storeWrites_ok _ hl,
      ih (fun s hs => h s (List.mem_cons_of_mem _ hs))]
    rw [hv]; rfl

/-- The nodes made by the first loop of `parse`: one per non-empty piece between
bars, or a single node with a `NULL` segment when there is none. -/
theorem parseSegments_eq (cmd : CStr) :
    parseSegments cmd =
      match piecesOf (fun c => c == '|') cmd with
      | [] => [none]
      | t :: ts => some t :: ts.map some := by
  unfold parseSegments
  rcases strtokFrom_spec "|".toList cmd with ⟨h1, h2⟩ | ⟨t, sv, h1, h2, h3, _⟩
  · rw [bar_pred] at h2
    rw [h1, h2]; rfl
  · rw [bar_pred] at h2
    rw [h1, h2]
    simp only [strtokRest_eq "|".toList sv.length sv (le_refl _), bar_pred]

/-- The queue `parse` builds when the command text has a non-empty segment and no
segment has `ARGS_MAX` words or more: one stage per non-empty segment, in order. -/
theorem parse_pieces (cmd : CStr)
    (hne : piecesOf (fun c => c == '|') cmd ≠ [])
    (h : ∀ seg ∈ piecesOf (fun c => c == '|') cmd, (spaceWords seg).length < ARGS_MAX) :
    parse cmd = .ok ((piecesOf (fun c => c == '|') cmd).map stageOf) := by
  unfold parse
  rw [parseSegments_eq]
  rcases hp : piecesOf (fun c => c == '|') cmd with _ | ⟨t, ts⟩
  · exact absurd hp hne
  · rw [hp] at h
    exact parseJobs_ok (t :: ts) h

/-! ## The stages as `runPipe` sees them -/

/-- The spawn loop leaves the `command` arrays as they are. -/
theorem spawnLoop_commands (os : OS) (tf : Int) (q : List Queue) (k : Nat)
    (pout : Option (Int × Int)) (p : Proc) :
    (spawnLoop os tf k q pout p).jobs.map Queue.command = q.map Queue.command := by
  induction q generalizing k pout p with
  | nil => rfl
  | cons job rest ih =>
    unfold spawnLoop
    split
    · rfl
    · split
      · split
        · split <;> simp [Outcome.after, ih]
        · simp [Outcome.after, ih]
      · simp [Outcome.after, ih]

/-- The spawn loop does not fault when every stage has a command name. -/
theorem spawnLoop_fault (os : OS) (tf : Int) (q : List Queue) (k : Nat)
    (pout : Option (Int × Int)) (p : Proc) (hn : ∀ j ∈ q, cmdName j ≠ none) :
    (spawnLoop os tf k q pout p).fault = none := by
  induction q generalizing k pout p with
  | nil => rfl
  | cons job rest ih =>
    have hr : ∀ j ∈ rest, cmdName j ≠ none := fun j hj => hn j (List.mem_cons_of_mem _ hj)
    unfold spawnLoop
    split
    · rename_i h; exact absurd h (hn job (List.mem_cons_self _ _))
    · split
      · split
        · split <;> simp [Outcome.after, ih _ _ _ hr]
        · simp [Outcome.after, ih _ _ _ hr]
      · simp [Outcome.after, ih _ _ _ hr]

/-- The events of one loop iteration for a stage that is not `cd`. -/
theorem stage_events_stdout (os : OS) (tf : Int) (k : Nat) (job : Queue) (last : Bool)
    (pout : Option (Int × Int)) (fds : List Int) (s : CStr)
    (h : Event.stdout s ∈ (wire tf last pout fds).1 ++
      (run os k job.command pout (wire tf last pout fds).2.1).1 ++
      (closePin pout (wire tf last pout fds).2.2).1) : s = forkFailMsg := by
  simp only [List.mem_append] at h
  rcases h with (h | h) | h
  · unfold wire at h; split at h <;> simp at h
  · unfold run at h; simp only at h; split at h <;> simp at h; exact h
  · unfold closePin at h; split at h <;> simp at h

/-- The only texts the spawn loop prints are the two error messages. -/
theorem spawnLoop_stdout (os : OS) (tf : Int) (q : List Queue) (k : Nat)
    (pout : Option (Int × Int)) (p : Proc) (s : CStr)
    (h : Event.stdout s ∈ (spawnLoop os tf k q pout p).events) :
    s = missingDirMsg ∨ s = forkFailMsg := by
  induction q generalizing k pout p with
  | nil => simp [spawnLoop] at h
  | cons job rest ih =>
    unfold spawnLoop at h
    split at h
    · simp at h
    · split at h
      · split at h
        · split at h
          · simp only [Outcome.after, List.mem_append, List.mem_singleton] at h
            rcases h with h | h
            · cases h
            · exact ih _ _ _ h
          · simp only [Outcome.after, List.mem_append, List.mem_singleton] at h
            rcases h with h | h
            · cases h
            · exact ih _ _ _ h
        · simp only [Outcome.after, List.mem_append, List.mem_singleton] at h
          rcases h with h | h
          · left; injection h
          · exact ih _ _ _ h
      · simp only [Outcome.after] at h
        rw [List.mem_append] at h
        rcases h with h | h
        · right; exact stage_events_stdout os tf k job _ pout p.fds s h
        · exact ih _ _ _ h

theorem waitLoop_commands (os : OS) (q : List Queue) (k : Nat) :
    (waitLoop os k q).2.1.map Queue.command = q.map Queue.command := by
  induction q generalizing k with
  | nil => rfl
  | cons job rest ih =>
    unfold waitLoop
    split
    · rfl
    · simp only
      split <;> simp [ih]

theorem waitLoop_fault (os : OS) (q : List Queue) (k : Nat) (hn : ∀ j ∈ q, cmdName j ≠ none) :
    (waitLoop os k q).2.2 = none := by
  induction q generalizing k with
  | nil => rfl
  | cons job rest ih =>
    have hr : ∀ j ∈ rest, cmdName j ≠ none := fun j hj => hn j (List.mem_cons_of_mem _ hj)
    unfold waitLoop
    split
    · rename_i h; exact absurd h (hn job (List.mem_cons_self _ _))
    · simp only
      split <;> simp [ih _ hr]

/-- The wait loop issues `waitpid` calls and nothing else. -/
theorem waitLoop_events (os : OS) (q : List Queue) (k : Nat) (e : Event)
    (h : e ∈ (waitLoop os k q).1) : e.isWait = true := by
  induction q generalizing k with
  | nil => simp [waitLoop] at h
  | cons job rest ih =>
    unfold waitLoop at h
    split at h
    · simp at h
    · simp only at h
      split at h
      · simp only [List.mem_cons] at h
        rcases h with h | h
        · subst h; rfl
        · exact ih _ h
      · exact ih _ h

theorem names_of_commands (q1 q2 : List Queue) (h : q1.map Queue.command = q2.map Queue.command)
    (hn : ∀ j ∈ q2, cmdName j ≠ none) : ∀ j ∈ q1, cmdName j ≠ none := by
  intro j hj
  have : j.command ∈ q2.map Queue.command := by
    rw [← h]; exact List.mem_map_of_mem _ hj
  obtain ⟨j2, hj2, he⟩ := List.mem_map.mp this
  have := hn j2 hj2
  unfold cmdName at *
  rw [← he]; exact this

theorem openTarget_events (os : OS) (target : Option CStr) (fds : List Int) (e : Event)
    (h : e ∈ (openTarget os target fds).1) :
    (∃ path r, e = Event.openFile path r) ∨
      (∃ path, target = some path ∧ e = Event.stderr (openFailMsg path)) := by
  unfold openTarget at h
  split at h
  · simp at h
  · split at h
    · simp at h; exact Or.inl ⟨_, _, h⟩
    · simp at h
      rcases h with h | h
      · exact Or.inl ⟨_, _, h⟩
      · exact Or.inr ⟨_, rfl, h⟩

theorem closeTarget_events (tf : Int) (fds : List Int) (e : Event)
    (h : e ∈ (closeTarget tf fds).1) : e = Event.close tf := by
  unfold closeTarget at h
  split at h <;> simp at h
  exact h

/-- When every stage has a name, `runPipe` runs to its end: its events are those of
`runPipePre` followed by the report, and the queue keeps its stages. -/
theorem runPipe_ok (os : OS) (prompt : CStr) (target : Option CStr) (q : List Queue) (p : Proc)
    (hn : ∀ j ∈ q, cmdName j ≠ none) :
    (runPipe os prompt target q p).events =
        runPipePre os target q p ++ reportEvents prompt (runPipe os prompt target q p).jobs ∧
      (runPipe os prompt target q p).fault = none ∧
      (runPipe os prompt target q p).jobs.map Queue.command = q.map Queue.command := by
  have hsf := spawnLoop_fault os (openTarget os target p.fds).2.1 q 0 none
    { p with fds := (openTarget os target p.fds).2.2 } hn
  have hsc := spawnLoop_commands os (openTarget os target p.fds).2.1 q 0 none
    { p with fds := (openTarget os target p.fds).2.2 }
  have hwf := waitLoop_fault os _ 0 (names_of_commands _ q hsc hn)
  have hwc := waitLoop_commands os (spawnLoop os (openTarget os target p.fds).2.1 0 q none
    { p with fds := (openTarget os target p.fds).2.2 }).jobs 0
  unfold runPipe runPipePre
  simp only [hsf, hwf]
  exact ⟨trivial, trivial, hwc.trans hsc⟩

theorem runPipePre_stdout (os : OS) (target : Option CStr) (q : List Queue) (p : Proc) (s : CStr)
    (h : Event.stdout s ∈ runPipePre os target q p) : s = missingDirMsg ∨ s = forkFailMsg := by
  unfold runPipePre at h
  rw [List.mem_append, List.mem_append, List.mem_append] at h
  rcases h with ((h | h) | h) | h
  · rcases openTarget_events _ _ _ _ h with ⟨_, _, h⟩ | ⟨_, _, h⟩ <;> cases h
  · exact spawnLoop_stdout _ _ _ _ _ _ _ h
  · cases closeTarget_events _ _ _ h
  · have := waitLoop_events _ _ _ _ h; cases this

/-- A line that is neither `exit` nor `pwd` and that `parse` accepts is handed to
`runPipe` with the whole line as `prompt` and the cut target. -/
theorem mainIter_runPipe (os : OS) (tty : Bool) (raw : CStr) (p : Proc) (q : List Queue)
    (hexit : strcmp (stripNewline raw) "exit".toList ≠ 0)
    (hpwd : strcmp (stripNewline raw) "pwd".toList ≠ 0)
    (hparse : parse (cutRedirect (stripNewline raw)).1 = .ok q) :
    mainIter os tty raw p =
      ⟨promptEvents tty raw ++
          (runPipe os (stripNewline raw) (cutRedirect (stripNewline raw)).2 q p).events,
        (runPipe os (stripNewline raw) (cutRedirect (stripNewline raw)).2 q p).jobs,
        (runPipe os (stripNewline raw) (cutRedirect (stripNewline raw)).2 q p).proc,
        (runPipe os (stripNewline raw) (cutRedirect (stripNewline raw)).2 q p).fault,
        (runPipe os (stripNewline raw) (cutRedirect (stripNewline raw)).2 q p).fault.isNone⟩ := by
  unfold mainIter
  simp only [hexit, hpwd, if_false, hparse]

/-- The shape of the report, whatever it holds: for a line that `parse` turns into a
queue `q` whose stages all have a command name, the shell prints, after the
prompt and the messages of the stages, the header with the full line as typed,
one field per node of `q` holding the final content of its `result` slot, in queue
order, and a newline. -/
theorem report_shape (os : OS) (tty : Bool) (raw : CStr) (p : Proc) (q : List Queue)
    (hexit : strcmp (stripNewline raw) "exit".toList ≠ 0)
    (hpwd : strcmp (stripNewline raw) "pwd".toList ≠ 0)
    (hparse : parse (cutRedirect (stripNewline raw)).1 = .ok q)
    (hn : ∀ j ∈ q, cmdName j ≠ none) :
    ∃ pre statuses,
      (mainIter os tty raw p).events = promptEvents tty raw ++ pre ++
        (Event.stdout ("Return status value of \x27".toList ++ stripNewline raw ++ "\x27:".toList) ::
          (statuses.map (fun s => Event.stdout (" [".toList ++ (toString s).toList ++ "]".toList)) ++
            [Event.stdout "\n".toList])) ∧
      statuses.length = q.length ∧
      statuses = (mainIter os tty raw p).jobs.map Queue.result ∧
      (mainIter os tty raw p).jobs.map Queue.command = q.map Queue.command ∧
      (mainIter os tty raw p).fault = none ∧
      (∀ s, Event.stdout s ∈ pre → s = missingDirMsg ∨ s = forkFailMsg) := by
  obtain ⟨hev, hf, hc⟩ :=
    runPipe_ok os (stripNewline raw) (cutRedirect (stripNewline raw)).2 q p hn
  refine ⟨runPipePre os (cutRedirect (stripNewline raw)).2 q p,
    (mainIter os tty raw p).jobs.map Queue.result, ?_, ?_, rfl, ?_, ?_, ?_⟩
  · rw [mainIter_runPipe os tty raw p q hexit hpwd hparse]
    simp only [hev, reportEvents, statusField, List.map_map, List.append_assoc]
    rfl
  · rw [mainIter_runPipe os tty raw p q hexit hpwd hparse]
    have := congrArg List.length hc
    simpa using this
  · rw [mainIter_runPipe os tty raw p q hexit hpwd hparse]; exact hc
  · rw [mainIter_runPipe os tty raw p q hexit hpwd hparse]; exact hf
  · exact fun s hs => runPipePre_stdout _ _ _ _ s hs

theorem spaceWords_nil : spaceWords [] = [] := piecesOf_nil _

theorem segmentsOf_ne_nil (cmd : CStr) : segmentsOf cmd ≠ [] := by
  unfold segmentsOf
  rw [splitAtSep_eq]
  exact List.cons_ne_nil _ _

theorem pieces_eq_segments (cmd : CStr)
    (h : ∀ seg ∈ segmentsOf cmd, 1 ≤ (spaceWords seg).length) :
    piecesOf (fun c => c == '|') cmd = segmentsOf cmd := by
  unfold piecesOf
  show List.filter _ (segmentsOf cmd) = segmentsOf cmd
  rw [List.filter_eq_self]
  intro seg hs
  have := h seg hs
  cases seg with
  | nil => rw [spaceWords_nil] at this; simp at this
  | cons c cs => rfl

/-- C2 (amended): for every command text whose `|`-separated segments each contain
at least one and at most `ARGS_MAX - 1` words, words being separated by the space
character only, `parse` builds exactly one stage per segment, in left-to-right
order, whose `command` array holds the words of the segment in order followed by
`NULL` in every remaining slot. -/
theorem parse_builds_stages (cmd : CStr)
    (h : ∀ seg ∈ segmentsOf cmd,
      1 ≤ (spaceWords seg).length ∧ (spaceWords seg).length < ARGS_MAX) :
    parse cmd = .ok ((segmentsOf cmd).map stageOf) ∧
      ∀ seg ∈ segmentsOf cmd, (stageOf seg).command =
        (spaceWords seg).map some ++ List.replicate (ARGS_MAX - (spaceWords seg).length) none := by
  have he := pieces_eq_segments cmd (fun seg hs => (h seg hs).1)
  refine ⟨?_, fun seg _ => rfl⟩
  rw [← he]
  apply parse_pieces
  · rw [he]; exact segmentsOf_ne_nil cmd
  · rw [he]; exact fun seg hs => (h seg hs).2

/-- Witness of `parse_builds_stages`: the command text `ls -l /tmp | grep a|wc`. -/
theorem parse_builds_stages_witness :
    (∀ seg ∈ segmentsOf "ls -l /tmp | grep a|wc".toList,
      1 ≤ (spaceWords seg).length ∧ (spaceWords seg).length < ARGS_MAX) ∧
    (parse "ls -l /tmp | grep a|wc".toList =
        .ok ((segmentsOf "ls -l /tmp | grep a|wc".toList).map stageOf) ∧
      ∀ seg ∈ segmentsOf "ls -l /tmp | grep a|wc".toList, (stageOf seg).command =
        (spaceWords seg).map some ++ List.replicate (ARGS_MAX - (spaceWords seg).length) none) :=
  ⟨by decide, parse_builds_stages "ls -l /tmp | grep a|wc".toList (by decide)⟩

/-- C2 (as stated, refuted): the command text `ls<TAB>-l` has one segment with the two
whitespace-separated words `ls` and `-l`, within the argument limit, yet `parse`
builds a stage whose only word is the whole text `ls<TAB>-l`: the tab does not
separate. -/
theorem parse_tab_not_split :
    (∀ seg ∈ segmentsOf "ls\t-l".toList,
      1 ≤ (whitespaceWords seg).length ∧ (whitespaceWords seg).length < ARGS_MAX) ∧
    (segmentsOf "ls\t-l".toList).map whitespaceWords = [["ls".toList, "-l".toList]] ∧
    parse "ls\t-l".toList = .ok [⟨commandOf ["ls\t-l".toList], 0⟩] ∧
    [commandOf ["ls\t-l".toList]] ≠
      (segmentsOf "ls\t-l".toList).map (fun seg => commandOf (whitespaceWords seg)) :=
  ⟨by decide, by decide, rfl, by decide⟩

/-- C6 (failing input): for a segment of `ARGS_MAX` = 16 words the loop of `parse`
stores the `NULL` that ends the words at index 16, one past the last slot of
`command`; the embedding stops `parse` there. -/
theorem sixteen_words_overflow :
    (spaceWords "a b c d e f g h i j k l m n o p".toList).length = ARGS_MAX ∧
    (16, none) ∈ jobWrites (some "a b c d e f g h i j k l m n o p".toList) ∧
    parse "a b c d e f g h i j k l m n o p".toList = .error Fault.argsOverflow :=
  ⟨by decide, by decide, rfl⟩

/-- The writes `parse` makes for a segment stay inside `command` exactly when the
segment has fewer than `ARGS_MAX` words. -/
theorem jobWrites_in_bounds (seg : CStr) :
    (∀ w ∈ jobWrites (some seg), w.1 < ARGS_MAX) ↔ (spaceWords seg).length < ARGS_MAX := by
  rw [jobWrites_eq]
  have hl := writtenValues_length (spaceWords seg)
  have h16 : ARGS_MAX = 16 := rfl
  constructor
  · intro h
    by_contra hc
    have hlt : ARGS_MAX < (writtenValues (spaceWords seg)).length := by rw [hl]; omega
    have hm : (ARGS_MAX, (writtenValues (spaceWords seg)).get ⟨ARGS_MAX, hlt⟩) ∈
        List.enumFrom 0 (writtenValues (spaceWords seg)) := by
      rw [List.mk_mem_enumFrom_iff_le_and_getElem?_sub]
      simp
    have := h _ hm
    simp at this
  · intro h w hw
    have := mem_enumFrom_fst _ 0 w hw
    rw [hl] at this
    omega

/-- C3 (failing input): for the line `echo hi > out.txt` the target handed to
`runPipe` keeps the blank after `>`, so the file opened is ` out.txt`, not
`out.txt`. -/
theorem redirect_target_keeps_blank :
    cutRedirect "echo hi > out.txt".toList = ("echo hi ".toList, some " out.txt".toList) ∧
    Event.openFile " out.txt".toList 3 ∈
      (mainIter demoOS true "echo hi > out.txt\n".toList demoProc).events ∧
    Event.openFile "out.txt".toList 3 ∉
      (mainIter demoOS true "echo hi > out.txt\n".toList demoProc).events :=
  ⟨by decide, by decide, by decide⟩

/-- A line without `>` is left whole by the redirect cut and has no target. -/
theorem cutRedirect_no_redirect (line : CStr) (h : ∀ c ∈ line, c ≠ '>') :
    cutRedirect line = (line, none) := by
  have hd : line.dropWhile (fun c => ">".toList.contains c) = line := by
    rw [gt_pred]
    cases line with
    | nil => rfl
    | cons c cs =>
      rw [List.dropWhile_cons_of_neg]
      simpa using h c (List.mem_cons_self _ _)
  have ht : line.takeWhile (fun x => !">".toList.contains x) = line := by
    rw [List.takeWhile_eq_self_iff]
    intro c hc
    have := congrFun gt_pred c
    simp only at this
    rw [this]
    simpa using h c hc
  have hd2 : line.dropWhile (fun x => !">".toList.contains x) = [] := by
    rw [List.dropWhile_eq_nil_iff]
    intro c hc
    have := congrFun gt_pred c
    simp only at this
    rw [this]
    simpa using h c hc
  have htk : line.takeWhile (fun c => ">".toList.contains c) = [] := by
    cases line with
    | nil => rfl
    | cons c cs =>
      rw [List.takeWhile_cons_of_neg]
      have := congrFun gt_pred c
      simp only at this
      rw [this]
      simpa using h c (List.mem_cons_self _ _)
  unfold cutRedirect bufAfterStrtok strtokFrom
  rw [hd, htk]
  cases line with
  | nil => rfl
  | cons c cs =>
    simp only [List.nil_append, ht, hd2]
    rfl

/-- C4 (failing input): when the target of `ls > /nodir/out` cannot be opened, `runPipe`
prints the error and goes on: it creates a pipe, hands `ls` to `run` with `-1` as
its output descriptor, waits for the child and prints the report. -/
theorem open_failure_still_spawns :
    (mainIter noOpenOS true "ls > /nodir/out\n".toList demoProc).events =
      [Event.stdout shellPrompt,
        Event.openFile " /nodir/out".toList (-1),
        Event.stderr "Error: file  /nodir/out failed to open!\n".toList,
        Event.pipe 3 4,
        Event.fork 0 (commandOf ["ls".toList]) none (some (3, -1)) 100,
        Event.close (-1),
        Event.waitpid 0 100,
        Event.stdout "Return status value of \x27ls > /nodir/out\x27:".toList,
        Event.stdout " [0]".toList,
        Event.stdout "\n".toList] := by
  decide

/-- C8 (failing input): for `cd /no/such/dir` the failed `chdir` is recorded as `-1` and
reported as `[-1]`, the working directory is unchanged, but the shell prints no
failure message; the message exists only for `cd` without an argument. -/
theorem failed_chdir_is_silent :
    (mainIter demoOS true "cd /no/such/dir\n".toList demoProc).events =
      [Event.stdout shellPrompt,
        Event.chdir "/no/such/dir".toList (-1),
        Event.stdout "Return status value of \x27cd /no/such/dir\x27:".toList,
        Event.stdout " [-1]".toList,
        Event.stdout "\n".toList] ∧
    (mainIter demoOS true "cd /no/such/dir\n".toList demoProc).proc.cwd = demoProc.cwd ∧
    (mainIter demoOS true "cd\n".toList demoProc).events =
      [Event.stdout shellPrompt,
        Event.stdout missingDirMsg,
        Event.stdout "Return status value of \x27cd\x27:".toList,
        Event.stdout " [-1]".toList,
        Event.stdout "\n".toList] :=
  ⟨by decide, by decide, by decide⟩

/-- C9 (failing input): for `ls > out.txt` the target gets descriptor 3 and the pipe
created for the last stage descriptors 4 and 5; the parent closes only 3, so 4
and 5 are still open when `runPipe` returns.  For `ls | cd /tmp` the pipe created
for `ls` (descriptors 3 and 4) is never closed either. -/
theorem redirect_leaks_pipe :
    demoProc.fds = [0, 1, 2] ∧
    (mainIter demoOS true "ls > out.txt\n".toList demoProc).proc.fds = [5, 4, 0, 1, 2] ∧
    (mainIter demoOS true "ls > out.txt\n".toList demoProc).events.filter
        (fun e => e.isClose || e == Event.pipe 4 5) =
      [Event.pipe 4 5, Event.close 3] ∧
    (mainIter demoOS true "ls | cd /tmp\n".toList demoProc).proc.fds = [4, 3, 0, 1, 2] :=
  ⟨by decide, by decide, by decide, by decide⟩

/-- C10 (failing input): for the line `cc` the child gets pid 100, the test before
`waitpid` evaluates to `-1 + 1 = 0`, no `waitpid` is issued and the pid is printed
as the status; when `fork` fails for `ls` the shell calls `waitpid(-1, ..)`, and
after a successful `cd /tmp` it calls `waitpid(0, ..)`. -/
theorem wait_condition_misfires :
    waitCond "cc".toList 100 = 0 ∧
    (mainIter demoOS true "cc\n".toList demoProc).events =
      [Event.stdout shellPrompt,
        Event.fork 0 (commandOf ["cc".toList]) none none 100,
        Event.stdout "Return status value of \x27cc\x27:".toList,
        Event.stdout " [100]".toList,
        Event.stdout "\n".toList] ∧
    waitedPids (mainIter noForkOS true "ls\n".toList demoProc).events = [-1] ∧
    waitedPids (mainIter demoOS true "cd /tmp\n".toList demoProc).events = [0] :=
  ⟨by decide, by decide, by decide, by decide⟩

/-- C1 (failing input): for the line `cd /tmp | true | false` the shell forks `true` as
pid 101 and `false` as pid 102 and then calls `waitpid(0, ..)` for the `cd` stage,
which reaps whichever child ended first.  The report has the header with the
full line and three fields, but the fields are not the statuses of the three
stages and change with the order in which the children end: `[0] [101] [256]`
when `true` ends first, `[256] [0] [102]` when `false` ends first; the stage whose
child was already reaped shows its pid. -/
theorem report_fields_follow_reaping :
    (parse (cutRedirect "cd /tmp | true | false".toList).1).toOption.map (List.map cmdName) =
      some [some "cd".toList, some "true".toList, some "false".toList] ∧
    (mainIter firstChildFirstOS true "cd /tmp | true | false\n".toList demoProc).events.filter
        Event.isFork =
      [Event.fork 1 (commandOf ["true".toList]) none (some (3, 4)) 101,
        Event.fork 2 (commandOf ["false".toList]) (some (3, 4)) (some (3, 4)) 102] ∧
    waitedPids (mainIter firstChildFirstOS true "cd /tmp | true | false\n".toList demoProc).events =
      [0, 101, 102] ∧
    waitedPids (mainIter secondChildFirstOS true "cd /tmp | true | false\n".toList demoProc).events =
      [0, 101, 102] ∧
    outputs (mainIter firstChildFirstOS true "cd /tmp | true | false\n".toList demoProc).events =
      [shellPrompt, "Return status value of \x27cd /tmp | true | false\x27:".toList,
        " [0]".toList, " [101]".toList, " [256]".toList, "\n".toList] ∧
    outputs (mainIter secondChildFirstOS true "cd /tmp | true | false\n".toList demoProc).events =
      [shellPrompt, "Return status value of \x27cd /tmp | true | false\x27:".toList,
        " [256]".toList, " [0]".toList, " [102]".toList, "\n".toList] :=
  ⟨by decide, by decide, by decide, by decide, by decide, by decide⟩

end SShell
